import Mathlib

/-!
Shallow embedding of the computational core of `src/quy_dashboard.py`:
the return sampler and Monte Carlo path simulator of tab 4
(lines 230-247) and the market-cap ranking scanner of tab 5
(lines 250-317).  Prices and returns are modelled as rationals;
pandas/numpy failures (a `ValueError` raised by `np.random.choice` on an
empty sample, a broadcast mismatch when assigning a column) are modelled
with `Except`; the randomness of `np.random.choice` is modelled by an
explicit stream of draw indices reduced modulo the sample length.
-/

namespace QuyDashboard

/-! ### Return sampler (tab 4, line 234)

`returns = filtered_data['Close'].pct_change().dropna()`.
`pct_change` maps each close to `cur / prev - 1`; the first entry has no
predecessor and is NaN, which `dropna` removes.  A `0/0` entry is also
NaN in floating point and is dropped; a nonzero close divided by a zero
close is infinite but not NaN, so `dropna` keeps it (the rational value
standing in for that unreachable infinity is irrelevant to the claims,
which restrict to nonzero closes). -/

/-- One step of `pct_change().dropna()` over the closes after the first:
given the previous close, emit `cur / prev - 1` for each close, dropping
the NaN produced by `0 / 0`. -/
def pctChangeStep (prev : ℚ) : List ℚ → List ℚ
  | [] => []
  | c :: rest =>
    if prev = 0 ∧ c = 0 then pctChangeStep c rest
    else (c / prev - 1) :: pctChangeStep c rest

/-- `Close.pct_change().dropna()`: the ReturnSample of a close series.
The leading undefined difference is always dropped. -/
def sampleReturns (closes : List ℚ) : List ℚ :=
  match closes with
  | [] => []
  | c :: rest => pctChangeStep c rest

/-! ### Monte Carlo path simulator (tab 4, lines 237-242) -/

/-- Failure modes of the simulation loop:
`emptySampleDraw` is the `ValueError` numpy raises for
`np.random.choice` on an empty sample; `shapeMismatch` is the broadcast
error of `simulations[:, i] = prices` when `len(prices)` differs from
the `time_horizon` used for `np.zeros`. -/
inductive SimError
  | emptySampleDraw
  | shapeMismatch
deriving DecidableEq

/-- `np.random.choice(returns)` with an explicit draw index `k`: fails on
an empty sample, otherwise returns the element at `k` reduced modulo the
sample length. -/
def npChoice (sample : List ℚ) (k : Nat) : Except SimError ℚ :=
  if h : sample.length = 0 then .error .emptySampleDraw
  else .ok (sample.get ⟨k % sample.length, Nat.mod_lt _ (Nat.pos_of_ne_zero h)⟩)

/-- The inner loop `for _ in range(time_horizon - 1):
prices.append(prices[-1] * (1 + np.random.choice(returns)))`, rendered
as a recursion that returns the price list headed by the current price
`p`; `t0` is the index of the next draw, `steps` the remaining
appends. -/
def pathFrom (sample : List ℚ) (draw : Nat → Nat) : ℚ → Nat → Nat → Except SimError (List ℚ)
  | p, _, 0 => .ok [p]
  | p, t0, steps + 1 =>
    match npChoice sample (draw t0) with
    | .error e => .error e
    | .ok r =>
      match pathFrom sample draw (p * (1 + r)) (t0 + 1) steps with
      | .error e => .error e
      | .ok rest => .ok (p :: rest)

/-- One simulated path: `prices = [last_price]` followed by
`time_horizon - 1` appends. -/
def buildPath (sample : List ℚ) (P0 : ℚ) (H : Nat) (draw : Nat → Nat) :
    Except SimError (List ℚ) :=
  pathFrom sample draw P0 0 (H - 1)

/-- The outer loop `for i in range(num_simulations)` storing each path as
column `i` of `simulations`; `count` is the number of columns still to
fill, `i` the current column index.  Storing checks the numpy broadcast
`len(prices) = time_horizon`. -/
def simColumns (sample : List ℚ) (P0 : ℚ) (H : Nat) (draw : Nat → Nat → Nat) :
    Nat → Nat → Except SimError (List (List ℚ))
  | _, 0 => .ok []
  | i, c + 1 =>
    match buildPath sample P0 H (draw i) with
    | .error e => .error e
    | .ok prices =>
      if prices.length = H then
        match simColumns sample P0 H draw (i + 1) c with
        | .error e => .error e
        | .ok rest => .ok (prices :: rest)
      else .error .shapeMismatch

/-- The whole simulation of tab 4: `M` paths of horizon `H`, starting at
`P0`, resampling from `sample` with draw indices `draw i t` for path `i`
and step `t`. -/
def simBatch (sample : List ℚ) (P0 : ℚ) (H M : Nat) (draw : Nat → Nat → Nat) :
    Except SimError (List (List ℚ)) :=
  simColumns sample P0 H draw 0 M

/-! ### Market-cap ranking scanner (tab 5, lines 270-317) -/

/-- What one per-symbol fetch yields when it does not raise:
`ticker_data.info.get("sharesOutstanding", None)` and the `Close` column
of `ticker_data.history(period="1y")`, ascending by date. -/
structure SymbolData where
  sharesOutstanding : Option ℚ
  closes : List ℚ
deriving DecidableEq

/-- Any exception raised while fetching or decoding one symbol's data
(caught by the `except Exception: continue` of the scan loop). -/
inductive FetchError
  | networkError
  | malformedData
deriving DecidableEq

/-- Pandas `iloc[-k]` on a series: for `k = 0` it is `iloc[0]`, otherwise
the element `k` positions from the end. -/
def ilocNeg (xs : List ℚ) (k : Nat) : Option ℚ :=
  if k = 0 then xs[0]? else xs[xs.length - k]?

/-- The per-symbol body of the scan loop after a successful fetch
(lines 277-289): skip (`none`) when shares outstanding is missing or the
history is empty; when `len(history) > period_days`, compute
`start_price = history['Close'].iloc[-period_days]`,
`end_price = history['Close'].iloc[-1]`, and the market-cap change
`end_price * shares - start_price * shares`; otherwise append nothing. -/
def scanSymbol (d : SymbolData) (periodDays : Nat) : Option ℚ :=
  match d.sharesOutstanding with
  | none => none
  | some s =>
    if d.closes.isEmpty then none
    else if periodDays < d.closes.length then
      (ilocNeg d.closes periodDays).bind fun startPrice =>
        (ilocNeg d.closes 1).map fun endPrice =>
          endPrice * s - startPrice * s
    else none

/-- A row of the `results` list: `{"Ticker": ticker, "Market Cap Change": ...}`. -/
structure RankingEntry where
  ticker : String
  change : ℚ
deriving DecidableEq

/-- The scan loop over `industry_tickers` (lines 272-292): per symbol the
fetch either raises (`except Exception: continue`, so the symbol is
dropped) or yields data handed to the loop body. -/
def scanUniverse (fetch : String → Except FetchError SymbolData) (periodDays : Nat)
    (symbols : List String) : List RankingEntry :=
  symbols.filterMap fun t =>
    match fetch t with
    | .error _ => none
    | .ok d => (scanSymbol d periodDays).map fun delta => ⟨t, delta⟩

/-- The sort key of `sort_values(by="Market Cap Change")`: ascending
comparison of the change field. -/
def entryLe (a b : RankingEntry) : Prop := a.change ≤ b.change

instance : DecidableRel entryLe :=
  fun a b => inferInstanceAs (Decidable (a.change ≤ b.change))

instance : IsTotal RankingEntry entryLe :=
  ⟨fun a b => le_total a.change b.change⟩

instance : IsTrans RankingEntry entryLe :=
  ⟨fun _ _ _ hab hbc => le_trans hab hbc⟩

/-- `sort_values(by="Market Cap Change", ascending=False)`: for a
descending sort pandas `nargsort` reverses the values and the index
array, argsorts ascending (stably, for the frames at hand), and then
reverses the resulting indexer, so the row order is
`reverse (stable ascending sort (reverse rows))`; the two reversals
cancel on tie classes, preserving original tie order. -/
def sortValuesDesc (rs : List RankingEntry) : List RankingEntry :=
  (List.insertionSort entryLe rs.reverse).reverse

/-- `top_companies = ...sort_values(...).head(10)` (line 296). -/
def topCompanies (rs : List RankingEntry) : List RankingEntry :=
  (sortValuesDesc rs).take 10

/-- The two render branches of tab 5 (lines 295-317): a nonempty
`results` list is sorted, truncated and shown as a table; an empty one
produces the distinct "No data available" message. -/
inductive ScanOutcome
  | table (rows : List RankingEntry)
  | noData
deriving DecidableEq

/-- `if results: ...render top_companies... else: st.write("No data ...")`. -/
def renderAnalysis (results : List RankingEntry) : ScanOutcome :=
  if results.isEmpty then .noData else .table (topCompanies results)

/-- The spec's formula for the ranking delta, stated for comparison with
`scanSymbol`: the baseline close is the one exactly `lookback` trading
days before the most recent observation, requiring `lookback + 1`
observations. -/
def specMarketCapDelta (closes : List ℚ) (shares : ℚ) (lookback : Nat) : Option ℚ :=
  if lookback + 1 ≤ closes.length then
    (ilocNeg closes (lookback + 1)).bind fun base =>
      (ilocNeg closes 1).map fun latest => (latest - base) * shares
  else none

/-! ### Helper lemmas -/

theorem pctChangeStep_length (rest : List ℚ) : ∀ prev : ℚ, (∀ x ∈ rest, x ≠ 0) →
    (pctChangeStep prev rest).length = rest.length := by
  induction rest with
  | nil => intro prev _; rfl
  | cons c rest ih =>
    intro prev hz
    have hc : c ≠ 0 := hz c (List.mem_cons_self c rest)
    have hcond : ¬ (prev = 0 ∧ c = 0) := fun h => hc h.2
    simp only [pctChangeStep, if_neg hcond, List.length_cons]
    rw [ih c fun x hx => hz x (List.mem_cons_of_mem c hx)]

/-! ### Claims about the return sampler -/

/-- C5: for every price history of `L ≥ 2` observations with nonzero
closes, the return sampler produces exactly `L - 1` consecutive-close
percentage changes, the undefined first difference being dropped. -/
theorem C5_sampleReturns_length (closes : List ℚ) (hL : 2 ≤ closes.length)
    (hz : ∀ c ∈ closes, c ≠ 0) :
    (sampleReturns closes).length = closes.length - 1 := by
  cases closes with
  | nil => simp at hL
  | cons c rest =>
    simp only [sampleReturns, List.length_cons, Nat.add_sub_cancel]
    exact pctChangeStep_length rest c fun x hx => hz x (List.mem_cons_of_mem c hx)

/-- Witness for C5 at the spec's scenario history `[100, 102, 101, 105]`:
the sample has `4 - 1 = 3` entries. -/
theorem C5_witness :
    (sampleReturns [(100 : ℚ), 102, 101, 105]).length = [(100 : ℚ), 102, 101, 105].length - 1 :=
  C5_sampleReturns_length [(100 : ℚ), 102, 101, 105] (by decide) (by decide)

/-- C7 counterexample: on the one-observation history `[100]` and on the
empty history the sampler raises nothing: it returns the empty
ReturnSample instead of failing with an `InsufficientDataError`. -/
theorem C7_counterexample :
    sampleReturns [(100 : ℚ)] = [] ∧ sampleReturns ([] : List ℚ) = [] :=
  ⟨rfl, rfl⟩

/-- C7 amended: on a history with fewer than 2 observations the sampler
does not fail; it returns the empty ReturnSample, deferring the failure
to the simulator's first draw from the empty sample. -/
theorem C7_short_history_empty_sample (closes : List ℚ)
    (h : closes.length < 2) : sampleReturns closes = [] := by
  cases closes with
  | nil => rfl
  | cons c rest =>
    cases rest with
    | nil => rfl
    | cons d rest2 =>
      exfalso
      simp only [List.length_cons] at h
      omega

/-- Witness for the amended C7 at the one-observation history. -/
theorem C7_witness : sampleReturns [(100 : ℚ)] = [] :=
  C7_short_history_empty_sample [(100 : ℚ)] (by decide)

/-! ### Claims about the ranking scanner -/

/-- C1 (code bug): with lookback `N = 1` over the history `[100, 110]`
and 5 shares outstanding, the scanner computes a delta of `0` — the code
takes the baseline at `iloc[-N]`, which is `N - 1` trading days before
the latest close — whereas the spec's baseline exactly `N` trading days
back gives `(110 - 100) × 5 = 50`. -/
theorem C1_baseline_off_by_one :
    scanSymbol ⟨some 5, [100, 110]⟩ 1 = some 0 ∧
      specMarketCapDelta [100, 110] 5 1 = some 50 ∧
      some (0 : ℚ) ≠ some 50 := by
  refine ⟨?_, ?_, ?_⟩
  · simp [scanSymbol, ilocNeg]
  · simp only [specMarketCapDelta, ilocNeg]
    norm_num
  · simp only [ne_eq, Option.some.injEq]
    norm_num

/-- C6: the scanner skips — yields no entry rather than a zero one — any
symbol whose shares outstanding is missing, whose price history is
empty, or whose history has fewer than `N + 1` observations. -/
theorem C6_skip_conditions (d : SymbolData) (N : Nat)
    (h : d.sharesOutstanding = none ∨ d.closes = [] ∨ d.closes.length < N + 1) :
    scanSymbol d N = none := by
  unfold scanSymbol
  cases hs : d.sharesOutstanding with
  | none => rfl
  | some v =>
    rcases h with h | h | h
    · rw [hs] at h; exact absurd h (by simp)
    · simp [h]
    · by_cases he : d.closes.isEmpty
      · simp [he]
      · have hlt : ¬ N < d.closes.length := by omega
        simp [he, hlt]

/-- Witness for C6: a symbol without shares outstanding is skipped. -/
theorem C6_witness : scanSymbol ⟨none, [100, 101]⟩ 180 = none :=
  C6_skip_conditions ⟨none, [100, 101]⟩ 180 (Or.inl rfl)

/-- C8: a failing per-symbol fetch removes exactly that symbol: the scan
of a universe containing the failing symbol equals the scan of the
universe without it, so a single symbol's failure never aborts the
scan. -/
theorem C8_failure_skips_only_symbol (fetch : String → Except FetchError SymbolData)
    (N : Nat) (u1 u2 : List String) (s : String) (e : FetchError)
    (hf : fetch s = .error e) :
    scanUniverse fetch N (u1 ++ s :: u2) = scanUniverse fetch N (u1 ++ u2) := by
  unfold scanUniverse
  simp only [List.filterMap_append, List.filterMap_cons, hf]

/-- Witness for C8: with every fetch failing, scanning `[A, B, C]` equals
scanning `[A, C]` when `B`'s fetch fails. -/
theorem C8_witness :
    scanUniverse (fun _ => .error .networkError) 1 (["A"] ++ "B" :: ["C"]) =
      scanUniverse (fun _ => .error .networkError) 1 (["A"] ++ ["C"]) :=
  C8_failure_skips_only_symbol (fun _ => .error .networkError) 1 ["A"] ["C"] "B"
    .networkError rfl

/-- C9: a scan with zero valid results renders the explicit no-data
outcome, which is distinct from a table of an empty top-10 list. -/
theorem C9_empty_scan_noData (results : List RankingEntry) (h : results = []) :
    renderAnalysis results = ScanOutcome.noData ∧
      ScanOutcome.noData ≠ ScanOutcome.table [] := by
  subst h
  exact ⟨rfl, by decide⟩

/-- Witness for C9 at the empty results list. -/
theorem C9_witness :
    renderAnalysis [] = ScanOutcome.noData ∧
      ScanOutcome.noData ≠ ScanOutcome.table [] :=
  C9_empty_scan_noData [] rfl

/-! ### Simulator lemmas -/

theorem npChoice_ok_mem (sample : List ℚ) (k : Nat) (hs : sample ≠ []) :
    ∃ r ∈ sample, npChoice sample k = .ok r := by
  unfold npChoice
  have h : ¬ sample.length = 0 := fun hl => hs (List.length_eq_zero.mp hl)
  rw [dif_neg h]
  exact ⟨_, sample.get_mem _ _, rfl⟩

theorem npChoice_mem {sample : List ℚ} {k : Nat} {r : ℚ}
    (h : npChoice sample k = .ok r) : r ∈ sample := by
  unfold npChoice at h
  split at h
  · exact absurd h (by simp)
  · cases h
    exact sample.get_mem _ _

theorem pathFrom_ok (sample : List ℚ) (draw : Nat → Nat) (hs : sample ≠ []) :
    ∀ (steps t0 : Nat) (p : ℚ), ∃ l, pathFrom sample draw p t0 steps = .ok l ∧
      l.length = steps + 1 ∧ l.head? = some p ∧
      l.Chain' (fun a b => ∃ r ∈ sample, b = a * (1 + r)) := by
  intro steps
  induction steps with
  | zero =>
    intro t0 p
    exact ⟨[p], rfl, rfl, rfl, List.chain'_singleton p⟩
  | succ k ih =>
    intro t0 p
    obtain ⟨r, hr, hc⟩ := npChoice_ok_mem sample (draw t0) hs
    obtain ⟨l, hl, hlen, hhead, hchain⟩ := ih (t0 + 1) (p * (1 + r))
    refine ⟨p :: l, ?_, ?_, rfl, ?_⟩
    · simp only [pathFrom, hc, hl]
    · simp [hlen]
    · rw [List.chain'_cons']
      refine ⟨?_, hchain⟩
      intro b hb
      rw [hhead, Option.mem_some_iff] at hb
      exact ⟨r, hr, hb.symm⟩

theorem pathFrom_pos (sample : List ℚ) (draw : Nat → Nat)
    (hr : ∀ r ∈ sample, -1 < r) :
    ∀ (steps t0 : Nat) (p : ℚ) (l : List ℚ), 0 < p →
      pathFrom sample draw p t0 steps = .ok l → ∀ x ∈ l, 0 < x := by
  intro steps
  induction steps with
  | zero =>
    intro t0 p l hp h x hx
    cases h
    rw [List.mem_singleton] at hx
    subst hx
    exact hp
  | succ k ih =>
    intro t0 p l hp h x hx
    cases hc : npChoice sample (draw t0) with
    | error e =>
      simp only [pathFrom, hc] at h
      exact Except.noConfusion h
    | ok r =>
      cases hrest : pathFrom sample draw (p * (1 + r)) (t0 + 1) k with
      | error e =>
        simp only [pathFrom, hc, hrest] at h
        exact Except.noConfusion h
      | ok rest =>
        simp only [pathFrom, hc, hrest] at h
        cases h
        have hrmem := npChoice_mem hc
        have hpos : 0 < p * (1 + r) := mul_pos hp (by linarith [hr r hrmem])
        rcases List.mem_cons.mp hx with rfl | hx2
        · exact hp
        · exact ih (t0 + 1) (p * (1 + r)) rest hpos hrest x hx2

theorem simColumns_ok (sample : List ℚ) (P0 : ℚ) (H : Nat) (draw : Nat → Nat → Nat)
    (hs : sample ≠ []) (hH : 1 ≤ H) :
    ∀ count i : Nat, ∃ paths, simColumns sample P0 H draw i count = .ok paths ∧
      paths.length = count ∧
      ∀ p ∈ paths, p.length = H ∧ p.head? = some P0 ∧
        p.Chain' (fun a b => ∃ r ∈ sample, b = a * (1 + r)) := by
  intro count
  induction count with
  | zero =>
    intro i
    exact ⟨[], rfl, rfl, by simp⟩
  | succ c ih =>
    intro i
    obtain ⟨l, hl, hlen, hhead, hchain⟩ := pathFrom_ok sample (draw i) hs (H - 1) 0 P0
    have hlH : l.length = H := by omega
    obtain ⟨paths, hp, hplen, hpall⟩ := ih (i + 1)
    refine ⟨l :: paths, ?_, by simp [hplen], ?_⟩
    · simp only [simColumns, buildPath, hl]
      rw [if_pos hlH, hp]
    · intro p hp2
      rcases List.mem_cons.mp hp2 with rfl | hp3
      · exact ⟨hlH, hhead, hchain⟩
      · exact hpall p hp3

theorem simColumns_paths (sample : List ℚ) (P0 : ℚ) (H : Nat) (draw : Nat → Nat → Nat) :
    ∀ (count i : Nat) (paths : List (List ℚ)),
      simColumns sample P0 H draw i count = .ok paths →
      ∀ p ∈ paths, ∃ j, pathFrom sample (draw j) P0 0 (H - 1) = .ok p := by
  intro count
  induction count with
  | zero =>
    intro i paths h p hp
    simp only [simColumns] at h
    cases h
    exact absurd hp (List.not_mem_nil p)
  | succ c ih =>
    intro i paths h p hp
    cases hb : buildPath sample P0 H (draw i) with
    | error e =>
      simp only [simColumns, hb] at h
      exact Except.noConfusion h
    | ok prices =>
      by_cases hpl : prices.length = H
      · cases hrest : simColumns sample P0 H draw (i + 1) c with
        | error e =>
          simp only [simColumns, hb, hrest] at h
          rw [if_pos hpl] at h
          exact Except.noConfusion h
        | ok rest =>
          simp only [simColumns, hb, hrest] at h
          rw [if_pos hpl] at h
          cases h
          rcases List.mem_cons.mp hp with rfl | hp2
          · simp only [buildPath] at hb
            exact ⟨i, hb⟩
          · exact ih (i + 1) rest hrest p hp2
      · simp only [simColumns, hb] at h
        rw [if_neg hpl] at h
        exact Except.noConfusion h

/-! ### Claims about the simulator -/

/-- C3 counterexample: with an empty ReturnSample, horizon 30 and a
non-positive path count 0, the simulator raises neither an
`InsufficientDataError` for the empty sample nor an
`InvalidParameterError` for the non-positive count: it returns an empty
batch without any failure. -/
theorem C3_counterexample :
    simBatch [] (100 : ℚ) 30 0 (fun _ _ => 0) = .ok [] := rfl

/-- C3 amended: the simulation loop has no explicit validation; with at
least one path and at least one draw per path an empty ReturnSample
makes the first draw fail (the untyped ValueError of
`np.random.choice`), while a path count of zero yields an empty batch
with no error regardless of the sample. -/
theorem C3_no_validation (sample : List ℚ) (P0 : ℚ) (H M : Nat)
    (draw : Nat → Nat → Nat) :
    (2 ≤ H → 1 ≤ M → simBatch [] P0 H M draw = .error .emptySampleDraw) ∧
      simBatch sample P0 H 0 draw = .ok [] := by
  constructor
  · intro hH hM
    obtain ⟨k, rfl⟩ : ∃ k, M = k + 1 := ⟨M - 1, by omega⟩
    obtain ⟨m, rfl⟩ : ∃ m, H = m + 2 := ⟨H - 2, by omega⟩
    rfl
  · rfl

/-- Witness for the amended C3: one path of horizon 2 over the empty
sample fails at the first draw. -/
theorem C3_witness :
    simBatch [] (100 : ℚ) 2 1 (fun _ _ => 0) = .error .emptySampleDraw :=
  (C3_no_validation [] 100 2 1 (fun _ _ => 0)).1 (by decide) (by decide)

/-- C4: for a non-empty ReturnSample, horizon `H ≥ 1` and count `M ≥ 1`,
the simulator succeeds with exactly `M` paths, each of length `H`,
starting at `P0`, every step multiplying the previous price by `1 + r`
for some sample element `r`. -/
theorem C4_batch_shape (sample : List ℚ) (P0 : ℚ) (H M : Nat)
    (draw : Nat → Nat → Nat) (hs : sample ≠ []) (hH : 1 ≤ H) (_hM : 1 ≤ M) :
    ∃ paths, simBatch sample P0 H M draw = .ok paths ∧ paths.length = M ∧
      ∀ p ∈ paths, p.length = H ∧ p.head? = some P0 ∧
        p.Chain' (fun a b => ∃ r ∈ sample, b = a * (1 + r)) :=
  simColumns_ok sample P0 H draw hs hH M 0

/-- Witness for C4: one path of horizon 2 resampling from `[1]`. -/
theorem C4_witness :
    ∃ paths, simBatch [(1 : ℚ)] 100 2 1 (fun _ _ => 0) = .ok paths ∧
      paths.length = 1 ∧
      ∀ p ∈ paths, p.length = 2 ∧ p.head? = some 100 ∧
        p.Chain' (fun a b => ∃ r ∈ [(1 : ℚ)], b = a * (1 + r)) :=
  C4_batch_shape [(1 : ℚ)] 100 2 1 (fun _ _ => 0) (by decide) (by decide) (by decide)

/-- C10: when the starting price is positive and every sampled return
exceeds `-1`, every price of every successfully simulated path is
strictly positive. -/
theorem C10_positivity (sample : List ℚ) (P0 : ℚ) (H M : Nat)
    (draw : Nat → Nat → Nat) (paths : List (List ℚ))
    (hok : simBatch sample P0 H M draw = .ok paths)
    (hP : 0 < P0) (hr : ∀ r ∈ sample, -1 < r) :
    ∀ p ∈ paths, ∀ x ∈ p, 0 < x := by
  intro p hp
  obtain ⟨j, hj⟩ := simColumns_paths sample P0 H draw M 0 paths hok p hp
  exact pathFrom_pos sample (draw j) hr (H - 1) 0 P0 p hP hj

/-- Witness for C10 with a one-step batch starting at 100: the price in
the produced path is positive. -/
theorem C10_witness : (0 : ℚ) < 100 :=
  C10_positivity [(1 : ℚ)] 100 1 1 (fun _ _ => 0) [[(100 : ℚ)]] rfl
    (by decide) (by decide) [(100 : ℚ)] (by decide) 100 (by decide)

/-! ### Stability of the descending sort -/

end QuyDashboard
